import Mathlib

/-- Character list standing for a Python `str`. -/
abbrev Str := List Char

/-- Convert a Lean string literal to the character-list model. -/
def strL (s : String) : Str := s.data

/-- Python `str.lower()` restricted to ASCII, as used throughout the matcher. -/
def lowerS (s : Str) : Str := s.map Char.toLower

/-- Whitespace characters recognised by Python `str.strip()` / `\s` (ASCII). -/
def isPySpace (c : Char) : Bool :=
  c == ' ' || c == '\t' || c == '\n' || c == '\r' || c == '\x0b' || c == '\x0c'

/-- Python `str.strip()`: drop leading and trailing whitespace. -/
def stripS (s : Str) : Str :=
  ((s.dropWhile isPySpace).reverse.dropWhile isPySpace).reverse

/-- Python `needle in hay` on strings: contiguous-substring test. -/
def infixB (needle hay : Str) : Bool := decide (needle <:+: hay)

/-- Python `str.split()` with no arguments: whitespace-delimited words. -/
def splitWS (s : Str) : List Str :=
  (s.splitOnP isPySpace).filter (fun w => w ≠ [])

/-- One chart-of-accounts entry, the fields of `acc["node"]` that
`find_best_account_match` reads: `id`, `name`, `type.name`, the optional
`subtype.name`, and `isArchived`. -/
structure Account where
  id : Str
  name : Str
  typeName : Str
  subtypeName : Option Str
  isArchived : Bool
deriving DecidableEq

/-- The tuple `(account_id, account_name, match_score, explanation)` that
`find_best_account_match` returns; scores are modelled as exact rationals. -/
abbrev MatchResult := Option Str × Option Str × ℚ × Str

/-- `WaveClient.EXPENSE_SYNONYMS`, in source (insertion) order. -/
def EXPENSE_SYNONYMS : List (Str × List Str) :=
  [ (strL "food", [strL "meals", strL "restaurant", strL "dining", strL "eating", strL "lunch", strL "dinner", strL "breakfast"]),
    (strL "gas", [strL "fuel", strL "gasoline", strL "petrol", strL "diesel"]),
    (strL "travel", [strL "transportation", strL "transport", strL "trip", strL "journey"]),
    (strL "office", [strL "supplies", strL "equipment", strL "materials", strL "stationery"]),
    (strL "car", [strL "vehicle", strL "auto", strL "automobile", strL "automotive"]),
    (strL "phone", [strL "mobile", strL "cellular", strL "telecommunications", strL "telecom"]),
    (strL "internet", [strL "web", strL "online", strL "broadband", strL "wifi"]),
    (strL "insurance", [strL "coverage", strL "policy", strL "premium"]),
    (strL "rent", [strL "rental", strL "lease", strL "leasing"]),
    (strL "utilities", [strL "electric", strL "electricity", strL "water", strL "gas", strL "power"]),
    (strL "marketing", [strL "advertising", strL "promotion", strL "ads"]),
    (strL "software", [strL "subscription", strL "saas", strL "app", strL "application"]),
    (strL "training", [strL "education", strL "learning", strL "course", strL "workshop"]),
    (strL "legal", [strL "attorney", strL "lawyer", strL "law", strL "professional"]),
    (strL "accounting", [strL "bookkeeping", strL "tax", strL "financial"]),
    (strL "maintenance", [strL "repair", strL "service", strL "upkeep"]),
    (strL "entertainment", [strL "client", strL "business"]) ]

/-- `WaveClient.INCOME_SYNONYMS`, in source (insertion) order. -/
def INCOME_SYNONYMS : List (Str × List Str) :=
  [ (strL "sales", [strL "revenue", strL "income", strL "receipts", strL "earnings"]),
    (strL "consulting", [strL "services", strL "professional", strL "advisory", strL "expertise"]),
    (strL "freelance", [strL "contract", strL "project", strL "gig", strL "independent"]),
    (strL "commission", [strL "referral", strL "bonus", strL "incentive"]),
    (strL "interest", [strL "dividend", strL "investment", strL "return"]),
    (strL "rental", [strL "rent", strL "lease", strL "property", strL "real estate", strL "rental income", strL "rent income", strL "property income", strL "leasing", strL "tenant"]),
    (strL "royalty", [strL "licensing", strL "intellectual property", strL "patent"]),
    (strL "other", [strL "miscellaneous", strL "misc", strL "various", strL "general"]) ]

/-- `synonyms = self.EXPENSE_SYNONYMS if account_type == "Expenses" else self.INCOME_SYNONYMS`. -/
def synTableFor (account_type : Str) : List (Str × List Str) :=
  if account_type == strL "Expenses" then EXPENSE_SYNONYMS else INCOME_SYNONYMS

/-- Filter strategy 1: exact match of `type.name`, excluding archived accounts. -/
def strategy1 (accounts : List Account) (account_type : Str) : List Account :=
  accounts.filter (fun a => a.typeName == account_type && !a.isArchived)

/-- Filter strategy 2: case-insensitive match of `type.name`, excluding archived accounts. -/
def strategy2 (accounts : List Account) (account_type : Str) : List Account :=
  accounts.filter (fun a => lowerS a.typeName == lowerS account_type && !a.isArchived)

/-- The `income_variations` literal of filter strategy 3. -/
def incomeVariations : List Str :=
  [strL "Income", strL "INCOME", strL "Revenue", strL "REVENUE", strL "income"]

/-- Filter strategy 3 (only tried for `account_type == "Income"`). -/
def strategy3 (accounts : List Account) : List Account :=
  accounts.filter (fun a => incomeVariations.contains a.typeName && !a.isArchived)

/-- The `income_subtypes` literal of filter strategy 4. -/
def incomeSubtypes : List Str :=
  [strL "INCOME", strL "REVENUE", strL "SALES", strL "OTHER_INCOME"]

/-- Filter strategy 4 (only tried for `account_type == "Income"`); a missing
subtype reads as the empty string, as with `.get("subtype", {}).get("name", "")`. -/
def strategy4 (accounts : List Account) : List Account :=
  accounts.filter (fun a => incomeSubtypes.contains (a.subtypeName.getD []) && !a.isArchived)

/-- The account-catalog filter of `find_best_account_match` (lines 467-499):
the four strategies in order, each tried only when every earlier one came up
empty, strategies 3 and 4 only for the Income class. -/
def filterAccounts (accounts : List Account) (account_type : Str) : List Account :=
  if strategy1 accounts account_type ≠ [] then strategy1 accounts account_type
  else if strategy2 accounts account_type ≠ [] then strategy2 accounts account_type
  else if (if account_type == strL "Income" then strategy3 accounts else []) ≠ [] then
    (if account_type == strL "Income" then strategy3 accounts else [])
  else if account_type == strL "Income" then strategy4 accounts else []

/-- The diagnostic built at lines 503-509 when no account of the class is left. -/
def noAccountsMsg (account_type : Str) : Str :=
  if account_type == strL "Income" then
    strL "No " ++ lowerS account_type ++ strL " accounts found." ++
      strL " This might explain the rental income matching issue. " ++
      strL "Try using the 'debug_accounts' tool to see all account types and identify your rental income accounts."
  else strL "No " ++ lowerS account_type ++ strL " accounts found."

/-- Word characters for the regex metacharacter `\b` (`\w`, ASCII). -/
def isWordChar (c : Char) : Bool := c.isAlphanum || c == '_'

/-- Maximal runs of word characters of a string, in order: the spans that can
carry a `\b`-delimited match. -/
def wordRuns (s : Str) : List Str :=
  (s.splitOnP (fun c => !isWordChar c)).filter (fun w => w ≠ [])

/-- `re.findall` for the pattern `\b(14[2-6])\b`: every maximal word-character
run that is exactly one of 142..146. -/
def findRange142 (s : Str) : List Str :=
  (wordRuns s).filter (fun r =>
    [strL "142", strL "143", strL "144", strL "145", strL "146"].contains r)

/-- `re.findall` for the pattern `\b(\d{3})\b`: every maximal word-character
run that is exactly three digits. -/
def findThreeDigit (s : Str) : List Str :=
  (wordRuns s).filter (fun r => r.length == 3 && r.all Char.isDigit)

/-- One step of a `re` scan for `word\s+(\d+)\b`: at the current position
(whose previous character, if any, is `prev`), try to match the literal word,
then one or more whitespace characters, then a maximal digit run followed by a
word boundary; on success yield the digits and resume after them, otherwise
advance one character. The fuel argument only bounds the recursion; every scan
consumes at least one character, so `length + 1` fuel never runs out. -/
def scanWordNumAux (word : Str) : Nat → Option Char → Str → List Str
  | 0, _, _ => []
  | _ + 1, _, [] => []
  | fuel + 1, prev, c :: rest =>
    let here := c :: rest
    let boundary := match prev with | none => true | some p => !isWordChar p
    if boundary && word.isPrefixOf here then
      let afterWord := here.drop word.length
      let ws := afterWord.takeWhile isPySpace
      let afterWs := afterWord.drop ws.length
      let digits := afterWs.takeWhile Char.isDigit
      let afterDigits := afterWs.drop digits.length
      let endBoundary := match afterDigits with | [] => true | d :: _ => !isWordChar d
      if ws ≠ [] && digits ≠ [] && endBoundary then
        digits :: scanWordNumAux word fuel (digits.getLast?) afterDigits
      else scanWordNumAux word fuel (some c) rest
    else scanWordNumAux word fuel (some c) rest

/-- `re.findall` for `\bapartment\s+(\d+)\b`. -/
def findApartmentNum (s : Str) : List Str :=
  scanWordNumAux (strL "apartment") (s.length + 1) none s

/-- `re.findall` for `\bunit\s+(\d+)\b`. -/
def findUnitNum (s : Str) : List Str :=
  scanWordNumAux (strL "unit") (s.length + 1) none s

/-- The `number_patterns` list (lines 525-530), each regex as its `findall`. -/
def numberPatterns : List (Str → List Str) :=
  [findRange142, findApartmentNum, findUnitNum, findThreeDigit]

/-- The extraction loop of lines 532-537 for an arbitrary pattern list:
`findall` each pattern against the lower-cased text, concatenate (`extend`)
and deduplicate (`list(set(...))`). -/
def extractWith (pats : List (Str → List Str)) (text : Str) : List Str :=
  ((pats.map (fun p => p (lowerS text))).flatten).dedup

/-- The numeric-token extractor: the loop run over `number_patterns`. -/
def extractNumbers (text : Str) : List Str := extractWith numberPatterns text

/-- difflib `SequenceMatcher.__chain_b`: the ascending positions of a
character in `b`, with the autojunk rule (for `len(b) >= 200`, characters
occurring more than `len(b) // 100 + 1` times are dropped). The matcher is
built with `isjunk=None`, so there is no junk set. -/
def b2jList (b : Str) (c : Char) : List Nat :=
  if b.length ≥ 200 && b.count c > b.length / 100 + 1 then []
  else (List.range b.length).filter (fun j => b.getD j ' ' == c)

/-- One row of the dynamic programme inside difflib `find_longest_match`:
processing position `i` of `a`, with `js` the in-window positions of `a[i]`
in `b`; `old` is the previous row (`j2len`), and the running best match only
moves on a strictly longer run, so the earliest maximum wins. -/
def flmRow (js : List Nat) (blo bhi i : Nat) (old : Nat → Nat)
    (best : Nat × Nat × Nat) : (Nat → Nat) × (Nat × Nat × Nat) :=
  (js.filter (fun j => blo ≤ j && j < bhi)).foldl
    (fun acc j =>
      let k := (if j = 0 then 0 else old (j - 1)) + 1
      let nw := fun x => if x = j then k else acc.1 x
      let b := if k > acc.2.2.2 then (i + 1 - k, j + 1 - k, k) else acc.2
      (nw, b))
    ((fun _ => 0), best)

/-- The main loop of difflib `find_longest_match` over `a[alo:ahi]`. -/
def flmRows (a : Str) (bjs : Char → List Nat) (alo ahi blo bhi : Nat) :
    Nat × Nat × Nat :=
  (((List.range ahi).drop alo).foldl
    (fun st i => flmRow (bjs (a.getD i ' ')) blo bhi i st.1 st.2)
    ((fun _ => 0), (alo, blo, 0))).2

/-- The left extension loop of `find_longest_match`: widen the best block over
equal characters before it (the junk set is empty, so `isbjunk` never blocks).
Fuel `besti` bounds the loop, which decrements `besti` each round. -/
def flmExtendLeft (a b : Str) (alo blo : Nat) :
    Nat → Nat × Nat × Nat → Nat × Nat × Nat
  | 0, best => best
  | fuel + 1, (besti, bestj, bestsize) =>
    if alo < besti && blo < bestj &&
        (a.getD (besti - 1) ' ' == b.getD (bestj - 1) ' ') then
      flmExtendLeft a b alo blo fuel (besti - 1, bestj - 1, bestsize + 1)
    else (besti, bestj, bestsize)

/-- The right extension loop of `find_longest_match`, symmetric to the left
one; fuel `ahi` bounds it since `besti + bestsize` grows each round. -/
def flmExtendRight (a b : Str) (ahi bhi : Nat) :
    Nat → Nat × Nat × Nat → Nat × Nat × Nat
  | 0, best => best
  | fuel + 1, (besti, bestj, bestsize) =>
    if besti + bestsize < ahi && bestj + bestsize < bhi &&
        (a.getD (besti + bestsize) ' ' == b.getD (bestj + bestsize) ' ') then
      flmExtendRight a b ahi bhi fuel (besti, bestj, bestsize + 1)
    else (besti, bestj, bestsize)

/-- difflib `find_longest_match` on the window `a[alo:ahi] x b[blo:bhi]`,
with empty junk: dynamic programme, then both non-junk extension loops (the
junk extension loops never fire because the junk set is empty). -/
def findLongestMatch (a b : Str) (bjs : Char → List Nat) (alo ahi blo bhi : Nat) :
    Nat × Nat × Nat :=
  flmExtendRight a b ahi bhi ahi
    (flmExtendLeft a b alo blo (flmRows a bjs alo ahi blo bhi).1
      (flmRows a bjs alo ahi blo bhi))

/-- The total size of difflib's matching blocks on a window: the recursive
splitting done by `get_matching_blocks`, which `ratio` sums. The fuel only
bounds the recursion depth; both sub-windows of a non-empty match are
strictly smaller, so `ahi + bhi + 1` fuel never runs out. -/
def matchSumAux (a b : Str) (bjs : Char → List Nat) :
    Nat → Nat → Nat → Nat → Nat → Nat
  | 0, _, _, _, _ => 0
  | fuel + 1, alo, ahi, blo, bhi =>
    let m := findLongestMatch a b bjs alo ahi blo bhi
    if m.2.2 = 0 then 0
    else
      matchSumAux a b bjs fuel alo m.1 blo m.2.1 + m.2.2 +
        matchSumAux a b bjs fuel (m.1 + m.2.2) ahi (m.2.1 + m.2.2) bhi

/-- difflib `SequenceMatcher(None, a, b).ratio()`: `2*M / T` with `M` the
total size of the matching blocks and `T` the summed lengths, as an exact
rational (`1.0` when both strings are empty). -/
def ratioQ (a b : Str) : ℚ :=
  if a.length + b.length = 0 then 1
  else
    mkRat (2 * (matchSumAux a b (b2jList b) (a.length + b.length + 1)
      0 a.length 0 b.length)) (a.length + b.length)

/-- The hundredths value a non-negative score rounds to under Python `:.2f`
formatting (round half to even, on the exact rational `100*q = a/d`). -/
def hundredths (q : ℚ) : Nat :=
  let a := (100 * q.num).toNat
  let d := q.den
  let n := a / d
  let r := a % d
  if 2 * r < d then n
  else if d < 2 * r then n + 1
  else if n % 2 = 0 then n else n + 1

/-- Two-digit zero-padded decimal rendering. -/
def pad2 (n : Nat) : Str :=
  (if n < 10 then ['0'] else []) ++ Nat.toDigits 10 n

/-- The text `f"{q:.2f}"` produces for the non-negative scores the matcher
formats into explanations. -/
def fmt2 (q : ℚ) : Str :=
  let n := hundredths q
  Nat.toDigits 10 (n / 100) ++ strL "." ++ pad2 (n % 100)

/-- The three locals threaded through Stage 2: `best_match`, `best_score`
and `best_explanation` (lines 512-514 initialise them). -/
structure MatchState where
  best_match : Option Account
  best_score : ℚ
  best_explanation : Str
deriving DecidableEq

/-- The repeated update idiom of Stage 2: a candidate score replaces the
best only when strictly greater. -/
def upd (st : MatchState) (score : ℚ) (a : Account) (e : Str) : MatchState :=
  if st.best_score < score then ⟨some a, score, e⟩ else st

/-- A single quote character, written out so explanation strings can be
assembled exactly as the source f-strings do. -/
def q1 : Str := strL "'"

/-- `", ".join(name for the first three filtered accounts)`, the suffix many
fallback explanations carry. -/
def availNames (filtered : List Account) : Str :=
  List.intercalate (strL ", ") ((filtered.take 3).map (fun a => a.name))

/-- First half of the synonym checks for one `(key, synonym_list)` entry
(lines 590-605): under the first match condition, the 0.9 key-substring
branch then the 0.85 indirect-synonym loop. -/
def synEntryUpd1 (uc ucl : Str) (a : Account) (anl : Str) (st : MatchState)
    (e : Str × List Str) : MatchState :=
  if ucl == e.1 || e.2.contains ucl then
    e.2.foldl (fun st syn =>
      if infixB syn anl then
        upd st (mkRat 17 20) a (strL "Synonym match: " ++ q1 ++ uc ++ q1 ++
          strL " relates to " ++ q1 ++ syn ++ q1 ++ strL " found in " ++ q1 ++ a.name ++ q1)
      else st)
      (if infixB e.1 anl then
        upd st (mkRat 9 10) a (strL "Synonym match: " ++ q1 ++ uc ++ q1 ++
          strL " relates to " ++ q1 ++ e.1 ++ q1 ++ strL " found in " ++ q1 ++ a.name ++ q1)
      else st)
  else st

/-- Both halves of the synonym checks for one entry: after the first
condition's branches, the 0.88 loop over key and synonyms under the second
(equivalent) condition (lines 607-615). -/
def synEntryUpd (uc ucl : Str) (a : Account) (anl : Str) (st : MatchState)
    (e : Str × List Str) : MatchState :=
  if (e.1 :: e.2).contains ucl then
    (e.1 :: e.2).foldl (fun st syn =>
      if infixB syn anl then
        upd st (mkRat 22 25) a (strL "Synonym match: " ++ q1 ++ uc ++ q1 ++
          strL " relates to " ++ q1 ++ syn ++ q1 ++ strL " in " ++ q1 ++ a.name ++ q1)
      else st) (synEntryUpd1 uc ucl a anl st e)
  else synEntryUpd1 uc ucl a anl st e

/-- Stage 2 body for one account (lines 568-615): direct fuzzy ratio, best
per-word ratio, then the synonym table. -/
def stage2Account (uc ucl : Str) (syns : List (Str × List Str))
    (st : MatchState) (a : Account) : MatchState :=
  let anl := lowerS a.name
  let s1 := ratioQ ucl anl
  let st := upd st s1 a (strL "Direct fuzzy match (score: " ++ fmt2 s1 ++ strL ")")
  let st := (splitWS anl).foldl (fun st w =>
    let ws := ratioQ ucl w
    upd st ws a (strL "Word match: " ++ q1 ++ uc ++ q1 ++ strL " ~ " ++ q1 ++ w ++ q1 ++
      strL " (score: " ++ fmt2 ws ++ strL ")")) st
  syns.foldl (synEntryUpd uc ucl a anl) st

/-- Stage 2 in full: one pass over the filtered accounts from the zero
initial state. -/
def stage2 (uc ucl : Str) (syns : List (Str × List Str))
    (filtered : List Account) : MatchState :=
  filtered.foldl (stage2Account uc ucl syns) ⟨none, 0, []⟩

/-- Stage 0 (lines 541-548): for each extracted number, first filtered
account whose lower-cased name contains both the number and "rental". -/
def stage0 (nums : List Str) (filtered : List Account) : Option MatchResult :=
  nums.findSome? fun n => filtered.findSome? fun a =>
    if infixB n (lowerS a.name) && infixB (strL "rental") (lowerS a.name) then
      some (some a.id, some a.name, mkRat 49 50,
        strL "Apartment-specific match: Found apartment " ++ n ++ strL " in " ++
          q1 ++ a.name ++ q1)
    else none

/-- Stage 1 (lines 550-565): per account in order, exact substring (1.0),
account-name prefix (0.95), then first-word prefix of the category (0.92). -/
def stage1 (uc ucl : Str) (filtered : List Account) : Option MatchResult :=
  filtered.findSome? fun a =>
    if infixB ucl (lowerS a.name) then
      some (some a.id, some a.name, 1,
        strL "Exact substring match: " ++ q1 ++ uc ++ q1 ++ strL " found in " ++
          q1 ++ a.name ++ q1)
    else if ucl.isPrefixOf (lowerS a.name) then
      some (some a.id, some a.name, mkRat 19 20,
        strL "Prefix match: " ++ q1 ++ a.name ++ q1 ++ strL " starts with " ++
          q1 ++ uc ++ q1)
    else
      match splitWS (lowerS a.name) with
      | [] => none
      | w :: _ =>
        if w.isPrefixOf ucl then
          some (some a.id, some a.name, mkRat 23 25,
            strL "Category prefix match: " ++ q1 ++ uc ++ q1 ++ strL " starts with " ++
              q1 ++ w ++ q1 ++ strL " from " ++ q1 ++ a.name ++ q1)
        else none

/-- The guarded Stage 0 call (line 542): only for a non-empty number list and
the Income class. -/
def stage0Gate (uc t : Str) (ctx : Option Str) (filtered : List Account) :
    Option MatchResult :=
  if extractNumbers (uc ++ [' '] ++ ctx.getD []) ≠ [] ∧ t == strL "Income" then
    stage0 (extractNumbers (uc ++ [' '] ++ ctx.getD [])) filtered
  else none

/-- The `avoid_terms` denylist of the rental fallback (line 651). -/
def avoidTerms : List Str :=
  [strL "foreign", strL "exchange", strL "gain", strL "loss", strL "interest", strL "dividend"]

/-- The last fallback (lines 658-666): first filtered account at 0.1, with a
misconfiguration warning when it is the only one. -/
def finalFallback (uc t : Str) (filtered : List Account) (first : Account) :
    MatchResult :=
  let e := strL "No good match for " ++ q1 ++ uc ++ q1 ++ strL ". Using default: " ++
    q1 ++ first.name ++ q1 ++ strL ". Available accounts: " ++ availNames filtered
  let e :=
    if filtered.length = 1 then
      e ++ strL ". ‚ö†Ô∏è WARNING: Only one " ++ lowerS t ++
        strL " account found - this suggests account filtering issues. Use " ++ q1 ++
        strL "debug_accounts" ++ q1 ++ strL " tool to investigate."
    else e
  (some first.id, some first.name, mkRat 1 10, e)

/-- The `relevant_keywords` computation (lines 632-636): key and synonyms of
the first matching table entry, else nothing. -/
def relevantKeywords (syns : List (Str × List Str)) (ucl : Str) : List Str :=
  match syns.find? (fun e => ucl == e.1 || e.2.contains ucl) with
  | some e => e.1 :: e.2
  | none => []

/-- The keyword / rental-denylist / default fallback chain (lines 628-666),
entered when no best-effort match was good enough. -/
def fallback2 (uc t ucl : Str) (syns : List (Str × List Str))
    (filtered : List Account) (first : Account) : MatchResult :=
  match filtered.findSome? (fun a => (relevantKeywords syns ucl).findSome? (fun kw =>
      if infixB kw (lowerS a.name) then some (a, kw) else none)) with
  | some (a, kw) =>
    (some a.id, some a.name, mkRat 1 2,
      strL "Fallback match: Found " ++ q1 ++ kw ++ q1 ++ strL " in " ++ q1 ++ a.name ++ q1 ++
        strL " based on category " ++ q1 ++ uc ++ q1 ++ strL ". Available accounts: " ++
        availNames filtered)
  | none =>
    if [strL "rent", strL "rental", strL "property"].contains ucl && filtered.length > 1 then
      match filtered.find? (fun a =>
          !(avoidTerms.any (fun w => infixB w (lowerS a.name)))) with
      | some a =>
        (some a.id, some a.name, mkRat 1 5,
          strL "Smart fallback: Selected " ++ q1 ++ a.name ++ q1 ++
            strL " (avoided obviously unrelated accounts). Available accounts: " ++
            availNames filtered)
      | none => finalFallback uc t filtered first
    else finalFallback uc t filtered first

/-- The branch on `best_match` and the 0.3 threshold inside Stage 3 (lines
623-626), with the matched option passed explicitly. -/
def stage3opt (uc t ucl : Str) (syns : List (Str × List Str))
    (filtered : List Account) (first : Account) (st : MatchState) :
    Option Account → MatchResult
  | some a =>
    if mkRat 3 10 < st.best_score then
      (some a.id, some a.name, st.best_score,
        strL "Best available match (low confidence): " ++ st.best_explanation ++
          strL ". Available accounts: " ++ availNames filtered)
    else fallback2 uc t ucl syns filtered first
  | none => fallback2 uc t ucl syns filtered first

/-- Stage 3 (lines 621-668): low-confidence best-effort return above 0.3,
else the fallback chain; the trailing no-accounts return of line 668 is kept
for the (unreachable here) empty list. -/
def stage3 (uc t ucl : Str) (syns : List (Str × List Str))
    (filtered : List Account) (st : MatchState) : MatchResult :=
  match filtered with
  | [] => (none, none, 0, strL "No " ++ lowerS t ++ strL " accounts available")
  | first :: _ => stage3opt uc t ucl syns filtered first st st.best_match

/-- The Stage 2 acceptance branch (lines 617-619) with the matched option
passed explicitly: return the global best when present with score at least
0.6, else fall through to Stage 3. -/
def stage23opt (uc t ucl : Str) (syns : List (Str × List Str))
    (filtered : List Account) (st : MatchState) : Option Account → MatchResult
  | some a =>
    if mkRat 3 5 ≤ st.best_score then
      (some a.id, some a.name, st.best_score, st.best_explanation)
    else stage3 uc t ucl syns filtered st
  | none => stage3 uc t ucl syns filtered st

/-- Stage 2 acceptance then Stage 3. -/
def stage23 (uc t ucl : Str) (syns : List (Str × List Str))
    (filtered : List Account) : MatchResult :=
  stage23opt uc t ucl syns filtered (stage2 uc ucl syns filtered)
    (stage2 uc ucl syns filtered).best_match

/-- Pipeline tail after Stage 0: Stage 1's result short-circuits, else Stage
2/3 run. -/
def pipeline1 (uc t ucl : Str) (syns : List (Str × List Str))
    (filtered : List Account) : Option MatchResult → MatchResult
  | some r => r
  | none => stage23 uc t ucl syns filtered

/-- Pipeline head: Stage 0's result short-circuits everything later. -/
def pipeline0 (uc t ucl : Str) (syns : List (Str × List Str))
    (filtered : List Account) : Option MatchResult → MatchResult
  | some r => r
  | none => pipeline1 uc t ucl syns filtered (stage1 uc ucl filtered)

/-- The matching pipeline once a non-empty filtered list exists: Stage 0
gate, Stage 1, then Stage 2/3. -/
def pipeline (uc t : Str) (ctx : Option Str) (filtered : List Account) :
    MatchResult :=
  pipeline0 uc t (stripS (lowerS uc)) (synTableFor t) filtered
    (stage0Gate uc t ctx filtered)

/-- `find_best_account_match(user_category, accounts, account_type,
user_context)` (lines 445-668): the full category-to-account resolution
engine. The `accounts` argument carries the `acc["node"]` objects. -/
def findBestAccountMatch (uc : Str) (accounts : List Account) (t : Str)
    (ctx : Option Str) : MatchResult :=
  if uc = [] then (none, none, 0, strL "No category provided")
  else if filterAccounts accounts t = [] then (none, none, 0, noAccountsMsg t)
  else pipeline uc t ctx (filterAccounts accounts t)

/-- State invariant threaded through Stage 2: an empty best has score zero,
and a chosen best is a listed account with a non-empty explanation. -/
def StInv (l : List Account) (st : MatchState) : Prop :=
  (st.best_match = none → st.best_score = 0) ∧
  ∀ a, st.best_match = some a → a ∈ l ∧ st.best_explanation ≠ []

/-- Soundness data every account-bearing result of the engine satisfies: the
identifier and name come from one filtered account, the score is at least the
0.1 fallback tier, and the explanation is non-empty. -/
def GoodResult (filtered : List Account) (r : MatchResult) : Prop :=
  (∃ a, a ∈ filtered ∧ r.1 = some a.id ∧ r.2.1 = some a.name) ∧
  mkRat 1 10 ≤ r.2.2.1 ∧ r.2.2.2 ≠ []

/-- Unarchived expense account used as a concrete fixture. -/
def accOffice : Account :=
  ⟨strL "e1", strL "Office Supplies", strL "Expenses", none, false⟩

/-- Unarchived rental income account for unit 142. -/
def acc142 : Account :=
  ⟨strL "id142", strL "Rental Income - 142", strL "Income", none, false⟩

/-- Unarchived rental income account for unit 144. -/
def acc144 : Account :=
  ⟨strL "id144", strL "Rental Income - 144", strL "Income", none, false⟩

/-- Unarchived income account whose name holds the synonym "lease" but not
the key "rental". -/
def accLease : Account :=
  ⟨strL "L1", strL "Lease Income", strL "Income", none, false⟩

/-- Expense account named "AB". -/
def accAB : Account := ⟨strL "1", strL "AB", strL "Expenses", none, false⟩

/-- Expense account named "B". -/
def accB : Account := ⟨strL "2", strL "B", strL "Expenses", none, false⟩

/-- Expense account named "Rent". -/
def accRent : Account := ⟨strL "r1", strL "Rent", strL "Expenses", none, false⟩

example : extractNumbers (strL "rent apartment 144 payment") = [strL "144"] := by decide
example : extractNumbers (strL "Unit 1203, floor 3") = [strL "1203"] := by decide
example : extractNumbers (strL "pay 1234 or 555") = [strL "555"] := by decide
example : filterAccounts [⟨strL "1", strL "A", strL "Expenses", none, true⟩] (strL "Expenses") = [] := by decide
example : ratioQ (strL "abc") (strL "xabcy") = mkRat 3 4 := by decide
example : ratioQ (strL "abcd") (strL "bcde") = mkRat 3 4 := by decide
example : ratioQ (strL "rent") (strL "rental") = mkRat 4 5 := by decide
example : ratioQ [] [] = 1 := by decide
example : ratioQ (strL "ab") (strL "ba") = mkRat 1 2 := by decide
example : fmt2 (mkRat 2 3) = strL "0.67" := by decide
example : fmt2 1 = strL "1.00" := by decide
example : fmt2 (mkRat 1 2) = strL "0.50" := by decide

/-- An invariant holds after a left fold when it holds initially and each
step on a list element preserves it. -/
theorem foldl_pres {α β : Type} {P : β → Prop} {f : β → α → β} :
    ∀ (l : List α) (b : β), P b → (∀ b a, a ∈ l → P b → P (f b a)) →
      P (l.foldl f b)
  | [], _, hb, _ => hb
  | a :: l, b, hb, hf =>
    foldl_pres l (f b a) (hf b a (List.mem_cons_self a l) hb)
      (fun b' a' ha' => hf b' a' (List.mem_cons_of_mem a ha'))

/-- A list with a non-empty left part is non-empty. -/
theorem ne_nil_left {l r : Str} (h : l ≠ []) : l ++ r ≠ [] :=
  fun hc => h (List.append_eq_nil.mp hc).1

/-- `infixB` decides the contiguous-substring relation. -/
theorem infixB_iff {n h : Str} : infixB n h = true ↔ n <:+: h := by
  simp [infixB]

/-- Stripping whitespace leaves a contiguous substring of the original. -/
theorem stripS_infixOf (s : Str) : stripS s <:+: s := by
  have h1 : (s.dropWhile isPySpace) <:+ s := List.dropWhile_suffix _
  have h2 : ((s.dropWhile isPySpace).reverse.dropWhile isPySpace) <:+
      (s.dropWhile isPySpace).reverse := List.dropWhile_suffix _
  have h3 := h2.reverse
  rw [List.reverse_reverse] at h3
  exact List.infix_iff_prefix_suffix.2 ⟨_, h3, h1⟩

/-- Every account a filter strategy keeps is an unarchived member of the
input list. -/
theorem mem_of_strategy {accounts : List Account} {p : Account → Bool} {a : Account}
    (h : a ∈ accounts.filter (fun x => p x && !x.isArchived)) :
    a ∈ accounts ∧ a.isArchived = false := by
  have := List.mem_filter.mp h
  refine ⟨this.1, ?_⟩
  have h2 := this.2
  simp only [Bool.and_eq_true, Bool.not_eq_true'] at h2
  exact h2.2

/-- Every account the catalog filter returns is an unarchived member of the
raw list. -/
theorem mem_strategy1 {accounts : List Account} {t : Str} {a : Account}
    (h : a ∈ strategy1 accounts t) : a ∈ accounts ∧ a.isArchived = false :=
  mem_of_strategy (by unfold strategy1 at h; exact h)

theorem mem_strategy2 {accounts : List Account} {t : Str} {a : Account}
    (h : a ∈ strategy2 accounts t) : a ∈ accounts ∧ a.isArchived = false :=
  mem_of_strategy (by unfold strategy2 at h; exact h)

theorem mem_strategy3 {accounts : List Account} {a : Account}
    (h : a ∈ strategy3 accounts) : a ∈ accounts ∧ a.isArchived = false :=
  mem_of_strategy (by unfold strategy3 at h; exact h)

theorem mem_strategy4 {accounts : List Account} {a : Account}
    (h : a ∈ strategy4 accounts) : a ∈ accounts ∧ a.isArchived = false :=
  mem_of_strategy (by unfold strategy4 at h; exact h)

/-- The catalog filter always returns one of the four strategies or the
empty list. -/
theorem filterAccounts_cases (accounts : List Account) (t : Str) :
    filterAccounts accounts t = strategy1 accounts t ∨
    filterAccounts accounts t = strategy2 accounts t ∨
    filterAccounts accounts t = strategy3 accounts ∨
    filterAccounts accounts t = strategy4 accounts ∨
    filterAccounts accounts t = [] := by
  unfold filterAccounts
  split_ifs <;> simp

theorem mem_of_filterAccounts {accounts : List Account} {t : Str} {a : Account}
    (h : a ∈ filterAccounts accounts t) :
    a ∈ accounts ∧ a.isArchived = false := by
  rcases filterAccounts_cases accounts t with hc | hc | hc | hc | hc <;>
    rw [hc] at h
  · exact mem_strategy1 h
  · exact mem_strategy2 h
  · exact mem_strategy3 h
  · exact mem_strategy4 h
  · simp at h

theorem upd_StInv {l : List Account} {st : MatchState} {s : ℚ} {a : Account}
    {e : Str} (ha : a ∈ l) (he : e ≠ []) (h : StInv l st) :
    StInv l (upd st s a e) := by
  unfold upd
  split
  · constructor
    · intro hc
      exact absurd (show (some a : Option Account) = none from hc) (by simp)
    · intro a' ha'
      have h' : some a = some a' := ha'
      cases h'
      exact ⟨ha, he⟩
  · exact h

/-- A fold of conditional `upd` steps over one account preserves the state
invariant, provided every written explanation is non-empty. -/
theorem updFold_StInv {α : Type} {l : List Account} {a : Account} {v : ℚ}
    {cond : α → Bool} {E : α → Str} (ha : a ∈ l) (hE : ∀ x, E x ≠ [])
    (ls : List α) (st : MatchState) (h : StInv l st) :
    StInv l (ls.foldl (fun st x => if cond x then upd st v a (E x) else st) st) := by
  refine foldl_pres _ _ h ?_
  intro b x _ hb
  split
  · exact upd_StInv ha (hE x) hb
  · exact hb

theorem synEntryUpd1_StInv {l : List Account} {uc ucl anl : Str} {a : Account}
    {st : MatchState} {e : Str × List Str} (ha : a ∈ l) (h : StInv l st) :
    StInv l (synEntryUpd1 uc ucl a anl st e) := by
  unfold synEntryUpd1
  split
  · refine updFold_StInv ha ?_ _ _ ?_
    · intro x
      repeat apply ne_nil_left
      decide
    · split
      · refine upd_StInv ha ?_ h
        repeat apply ne_nil_left
        decide
      · exact h
  · exact h

theorem synEntryUpd_StInv {l : List Account} {uc ucl anl : Str} {a : Account}
    {st : MatchState} {e : Str × List Str} (ha : a ∈ l) (h : StInv l st) :
    StInv l (synEntryUpd uc ucl a anl st e) := by
  unfold synEntryUpd
  split
  · refine updFold_StInv ha ?_ _ _ (synEntryUpd1_StInv ha h)
    intro x
    repeat apply ne_nil_left
    decide
  · exact synEntryUpd1_StInv ha h

theorem stage2Account_StInv {l : List Account} {uc ucl : Str}
    {syns : List (Str × List Str)} {st : MatchState} {a : Account}
    (ha : a ∈ l) (h : StInv l st) :
    StInv l (stage2Account uc ucl syns st a) := by
  unfold stage2Account
  refine foldl_pres _ _ ?_ (fun b e _ hb => synEntryUpd_StInv ha hb)
  refine foldl_pres _ _ ?_ ?_
  · refine upd_StInv ha ?_ h
    repeat apply ne_nil_left
    decide
  · intro b w _ hb
    refine upd_StInv ha ?_ hb
    repeat apply ne_nil_left
    decide

theorem stage2_StInv {uc ucl : Str} {syns : List (Str × List Str)}
    {filtered : List Account} : StInv filtered (stage2 uc ucl syns filtered) := by
  unfold stage2
  exact foldl_pres _ _ ⟨fun _ => rfl, fun a ha => by cases ha⟩
    (fun b a ha hb => stage2Account_StInv ha hb)

theorem stage0_good {nums : List Str} {filtered : List Account}
    {r : MatchResult} (h : stage0 nums filtered = some r) :
    GoodResult filtered r ∧ r.2.2.1 = mkRat 49 50 := by
  unfold stage0 at h
  obtain ⟨n, _, hfa⟩ := List.exists_of_findSome?_eq_some h
  obtain ⟨a, ha, hfa2⟩ := List.exists_of_findSome?_eq_some hfa
  split at hfa2
  · cases hfa2
    refine ⟨⟨⟨a, ha, rfl, rfl⟩, (by decide : mkRat 1 10 ≤ mkRat 49 50), ?_⟩, rfl⟩
    repeat apply ne_nil_left
    decide
  · cases hfa2

theorem stage1_good {uc ucl : Str} {filtered : List Account}
    {r : MatchResult} (h : stage1 uc ucl filtered = some r) :
    GoodResult filtered r := by
  unfold stage1 at h
  obtain ⟨a, ha, hfa⟩ := List.exists_of_findSome?_eq_some h
  split at hfa
  · cases hfa
    refine ⟨⟨a, ha, rfl, rfl⟩, (by decide : mkRat 1 10 ≤ (1 : ℚ)), ?_⟩
    repeat apply ne_nil_left
    decide
  · split at hfa
    · cases hfa
      refine ⟨⟨a, ha, rfl, rfl⟩, (by decide : mkRat 1 10 ≤ mkRat 19 20), ?_⟩
      repeat apply ne_nil_left
      decide
    · split at hfa
      · cases hfa
      · split at hfa
        · cases hfa
          refine ⟨⟨a, ha, rfl, rfl⟩, (by decide : mkRat 1 10 ≤ mkRat 23 25), ?_⟩
          repeat apply ne_nil_left
          decide
        · cases hfa

theorem finalFallback_good {uc t : Str} {filtered : List Account}
    {first : Account} (hf : first ∈ filtered) :
    GoodResult filtered (finalFallback uc t filtered first) := by
  unfold finalFallback
  refine ⟨⟨first, hf, rfl, rfl⟩, le_refl _, ?_⟩
  split
  · apply ne_nil_left
    repeat apply ne_nil_left
    decide
  · repeat apply ne_nil_left
    decide

theorem fallback2_good {uc t ucl : Str} {syns : List (Str × List Str)}
    {filtered : List Account} {first : Account} (hf : first ∈ filtered) :
    GoodResult filtered (fallback2 uc t ucl syns filtered first) := by
  unfold fallback2
  split
  · next a kw heq =>
    obtain ⟨a', ha', hfa⟩ := List.exists_of_findSome?_eq_some heq
    obtain ⟨kw', _, hfa2⟩ := List.exists_of_findSome?_eq_some hfa
    split at hfa2
    · injection hfa2 with hp
      injection hp with h1 h2
      subst h1
      refine ⟨⟨a', ha', rfl, rfl⟩, (by decide : mkRat 1 10 ≤ mkRat 1 2), ?_⟩
      repeat apply ne_nil_left
      decide
    · cases hfa2
  · split
    · split
      · next a heq =>
        refine ⟨⟨a, List.mem_of_find?_eq_some heq, rfl, rfl⟩,
          (by decide : mkRat 1 10 ≤ mkRat 1 5), ?_⟩
        repeat apply ne_nil_left
        decide
      · exact finalFallback_good hf
    · exact finalFallback_good hf

theorem stage3opt_good {uc t ucl : Str} {syns : List (Str × List Str)}
    {filtered : List Account} {first : Account} {st : MatchState}
    {bm : Option Account} (hfm : first ∈ filtered)
    (hbm : ∀ a, bm = some a → a ∈ filtered ∧ st.best_explanation ≠ []) :
    GoodResult filtered (stage3opt uc t ucl syns filtered first st bm) := by
  cases bm with
  | some a =>
    simp only [stage3opt]
    split
    · next hgt =>
      obtain ⟨hmem, hexp⟩ := hbm a rfl
      refine ⟨⟨a, hmem, rfl, rfl⟩, ?_, ?_⟩
      · exact le_trans (by decide) (le_of_lt hgt)
      · repeat apply ne_nil_left
        decide
    · exact fallback2_good hfm
  | none =>
    simp only [stage3opt]
    exact fallback2_good hfm

theorem stage3_good {uc t ucl : Str} {syns : List (Str × List Str)}
    {filtered : List Account} {st : MatchState} (hf : filtered ≠ [])
    (hinv : StInv filtered st) :
    GoodResult filtered (stage3 uc t ucl syns filtered st) := by
  cases filtered with
  | nil => exact absurd rfl hf
  | cons first rest =>
    show GoodResult (first :: rest)
      (stage3opt uc t ucl syns (first :: rest) first st st.best_match)
    exact stage3opt_good (List.mem_cons_self first rest) hinv.2

theorem stage23_good {uc t ucl : Str} {syns : List (Str × List Str)}
    {filtered : List Account} (hf : filtered ≠ []) :
    GoodResult filtered (stage23 uc t ucl syns filtered) := by
  unfold stage23
  have hinv : StInv filtered (stage2 uc ucl syns filtered) := stage2_StInv
  cases hbm : (stage2 uc ucl syns filtered).best_match with
  | some a =>
    simp only [stage23opt]
    split
    · next hge =>
      obtain ⟨hmem, hexp⟩ := hinv.2 a hbm
      exact ⟨⟨a, hmem, rfl, rfl⟩, le_trans (by decide) hge, hexp⟩
    · exact stage3_good hf hinv
  | none =>
    simp only [stage23opt]
    exact stage3_good hf hinv

theorem dedup_toFinset {α : Type} [DecidableEq α] (l : List α) :
    l.dedup.toFinset = l.toFinset := by
  ext x
  simp [List.mem_dedup]

theorem noAccountsMsg_ne_nil (t : Str) : noAccountsMsg t ≠ [] := by
  unfold noAccountsMsg
  split
  · apply ne_nil_left
    repeat apply ne_nil_left
    decide
  · repeat apply ne_nil_left
    decide

theorem pipeline_good {uc t : Str} {ctx : Option Str}
    {filtered : List Account} (hf : filtered ≠ []) :
    GoodResult filtered (pipeline uc t ctx filtered) := by
  unfold pipeline
  cases h0 : stage0Gate uc t ctx filtered with
  | some r =>
    simp only [pipeline0]
    unfold stage0Gate at h0
    split at h0
    · exact (stage0_good h0).1
    · cases h0
  | none =>
    simp only [pipeline0]
    cases h1 : stage1 uc (stripS (lowerS uc)) filtered with
    | some r =>
      simp only [pipeline1]
      exact stage1_good h1
    | none =>
      simp only [pipeline1]
      exact stage23_good hf

/-- C10: for every candidate list, class and context, an empty category label
makes the engine return `(None, None, 0.0, "No category provided")` — even
when unarchived accounts of the requested class exist, so `accountId = None`
with score `0.0` does not by itself imply an empty candidate pool. -/
theorem emptyLabelShortCircuits (accounts : List Account) (t : Str)
    (ctx : Option Str) :
    findBestAccountMatch [] accounts t ctx =
      (none, none, 0, strL "No category provided") := by
  unfold findBestAccountMatch
  rw [if_pos rfl]

/-- C2 counterexample: with the empty category label, the filtered list for
the lone unarchived expense account is non-empty and yet the engine returns
`accountId = None` at score `0.0`. -/
theorem populatedIdNeedsLabel_cex :
    filterAccounts [accOffice] (strL "Expenses") ≠ [] ∧
    (findBestAccountMatch [] [accOffice] (strL "Expenses") none).1 = none ∧
    (findBestAccountMatch [] [accOffice] (strL "Expenses") none).2.2.1 = 0 := by
  decide

/-- C2 (amended with a non-empty category label): whenever the filtered
account list is non-empty, the engine returns a populated `accountId` with a
score at least the 0.1 fallback tier. -/
theorem populatedIdOnNonEmptyFiltered (uc : Str) (accounts : List Account)
    (t : Str) (ctx : Option Str) (hu : uc ≠ [])
    (hf : filterAccounts accounts t ≠ []) :
    (∃ i, (findBestAccountMatch uc accounts t ctx).1 = some i) ∧
    mkRat 1 10 ≤ (findBestAccountMatch uc accounts t ctx).2.2.1 := by
  unfold findBestAccountMatch
  rw [if_neg hu, if_neg hf]
  obtain ⟨⟨a, _, h1, _⟩, hs, _⟩ := @pipeline_good uc t ctx _ hf
  exact ⟨⟨a.id, h1⟩, hs⟩

/-- C2 witness at a concrete input. -/
theorem populatedIdOnNonEmptyFiltered_witness :
    (∃ i, (findBestAccountMatch (strL "x") [accOffice] (strL "Expenses") none).1 = some i) ∧
    mkRat 1 10 ≤ (findBestAccountMatch (strL "x") [accOffice] (strL "Expenses") none).2.2.1 :=
  populatedIdOnNonEmptyFiltered (strL "x") [accOffice] (strL "Expenses") none
    (by decide) (by decide)

/-- C4: every populated `accountId` the engine returns references an
unarchived account of the supplied candidate list, and the explanation is
non-empty in every case (success, low confidence, or absence of
candidates). -/
theorem resultSoundAndExplained (uc : Str) (accounts : List Account) (t : Str)
    (ctx : Option Str) :
    (∀ i, (findBestAccountMatch uc accounts t ctx).1 = some i →
      ∃ acc, acc ∈ accounts ∧ acc.isArchived = false ∧ acc.id = i) ∧
    (findBestAccountMatch uc accounts t ctx).2.2.2 ≠ [] := by
  unfold findBestAccountMatch
  split
  · exact ⟨fun i hi => absurd hi (by simp), by decide⟩
  · split
    · exact ⟨fun i hi => absurd hi (by simp), noAccountsMsg_ne_nil t⟩
    · next hf =>
      obtain ⟨⟨a, ha, h1, _⟩, _, hexp⟩ :=
        @pipeline_good uc t ctx _ hf
      refine ⟨fun i hi => ?_, hexp⟩
      rw [h1] at hi
      obtain ⟨hmem, harch⟩ := mem_of_filterAccounts ha
      exact ⟨a, hmem, harch, Option.some.inj hi⟩

/-- C4 witness at a concrete input with a populated identifier. -/
theorem resultSoundAndExplained_witness :
    ∃ acc, acc ∈ [accOffice] ∧ acc.isArchived = false ∧ acc.id = strL "e1" :=
  (resultSoundAndExplained (strL "x") [accOffice] (strL "Expenses") none).1
    (strL "e1") (by decide)

/-- C5 counterexample: on an empty category label with an empty (hence empty
filtered) account list, the engine returns "No category provided", which does
not name the account class — not the class-naming diagnostic. -/
theorem emptyFilteredDiagnostic_cex :
    filterAccounts ([] : List Account) (strL "Income") = [] ∧
    (findBestAccountMatch [] [] (strL "Income") none).2.2.2 =
      strL "No category provided" ∧
    infixB (lowerS (strL "Income")) (strL "No category provided") = false := by
  decide

/-- C5 (amended with a non-empty category label): the engine is a total
function; when the filtered account list is empty it returns
`(None, None, 0.0, diagnostic)` where the diagnostic names the account class
(its lower-cased name occurs in the text). -/
theorem emptyFilteredDiagnostic (uc : Str) (accounts : List Account) (t : Str)
    (ctx : Option Str) (hu : uc ≠ []) (hf : filterAccounts accounts t = []) :
    findBestAccountMatch uc accounts t ctx = (none, none, 0, noAccountsMsg t) ∧
    lowerS t <:+: noAccountsMsg t := by
  constructor
  · unfold findBestAccountMatch
    rw [if_neg hu, if_pos hf]
  · unfold noAccountsMsg
    split
    · exact ⟨strL "No ", strL " accounts found." ++
        (strL " This might explain the rental income matching issue. " ++
          strL "Try using the 'debug_accounts' tool to see all account types and identify your rental income accounts."),
        by simp⟩
    · exact ⟨strL "No ", strL " accounts found.", by simp⟩

/-- C5 witness at a concrete input. -/
theorem emptyFilteredDiagnostic_witness :
    findBestAccountMatch (strL "x") [] (strL "Expenses") none =
      (none, none, 0, noAccountsMsg (strL "Expenses")) ∧
    lowerS (strL "Expenses") <:+: noAccountsMsg (strL "Expenses") :=
  emptyFilteredDiagnostic (strL "x") [] (strL "Expenses") none
    (by decide) (by decide)

/-- C8: the catalog filter tries its four strategies in fixed order and stops
at the first non-empty result; strategies 3 and 4 run only for the Income
class (for any other class the result is decided by strategies 1 and 2
alone); and every account it returns is an unarchived member of the input. -/
theorem catalogFilterDesign (accounts : List Account) (t : Str) :
    (∀ a, a ∈ filterAccounts accounts t → a ∈ accounts ∧ a.isArchived = false) ∧
    (strategy1 accounts t ≠ [] →
      filterAccounts accounts t = strategy1 accounts t) ∧
    (strategy1 accounts t = [] → strategy2 accounts t ≠ [] →
      filterAccounts accounts t = strategy2 accounts t) ∧
    (strategy1 accounts t = [] → strategy2 accounts t = [] → t = strL "Income" →
      strategy3 accounts ≠ [] → filterAccounts accounts t = strategy3 accounts) ∧
    (strategy1 accounts t = [] → strategy2 accounts t = [] → t = strL "Income" →
      strategy3 accounts = [] → filterAccounts accounts t = strategy4 accounts) ∧
    (t ≠ strL "Income" → strategy1 accounts t = [] → strategy2 accounts t = [] →
      filterAccounts accounts t = []) := by
  refine ⟨fun a ha => mem_of_filterAccounts ha, ?_, ?_, ?_, ?_, ?_⟩
  · intro h1
    unfold filterAccounts
    rw [if_pos h1]
  · intro h1 h2
    unfold filterAccounts
    rw [if_neg (by simp [h1]), if_pos h2]
  · intro h1 h2 ht h3
    unfold filterAccounts
    rw [if_neg (by simp [h1]), if_neg (by simp [h2]),
      if_pos (by simp [ht, h3]), if_pos (by simp [ht])]
  · intro h1 h2 ht h3
    unfold filterAccounts
    rw [if_neg (by simp [h1]), if_neg (by simp [h2]),
      if_neg (by simp [ht, h3]), if_pos (by simp [ht])]
  · intro ht h1 h2
    unfold filterAccounts
    rw [if_neg (by simp [h1]), if_neg (by simp [h2]),
      if_neg (by simp [ht]), if_neg (by simp [ht])]

/-- C8 witness at a concrete input: strategy 1 already succeeds and is
returned unchanged. -/
theorem catalogFilterDesign_witness :
    strategy1 [accOffice] (strL "Expenses") ≠ [] ∧
    filterAccounts [accOffice] (strL "Expenses") =
      strategy1 [accOffice] (strL "Expenses") :=
  ⟨by decide, (catalogFilterDesign [accOffice] (strL "Expenses")).2.1 (by decide)⟩

/-- C9: the extractor's output, as a set, is exactly the union of the four
patterns' matches against the lower-cased text, and permuting the pattern
list never changes that set. -/
theorem extractorIsPatternUnion (text : Str) :
    (extractNumbers text).toFinset =
      (findRange142 (lowerS text)).toFinset ∪
      (findApartmentNum (lowerS text)).toFinset ∪
      (findUnitNum (lowerS text)).toFinset ∪
      (findThreeDigit (lowerS text)).toFinset ∧
    (∀ pats, pats.Perm numberPatterns →
      (extractWith pats text).toFinset = (extractNumbers text).toFinset) := by
  constructor
  · unfold extractNumbers extractWith numberPatterns
    rw [dedup_toFinset]
    simp [List.toFinset_append, Finset.union_assoc]
  · intro pats hp
    unfold extractNumbers extractWith
    rw [dedup_toFinset, dedup_toFinset]
    exact List.toFinset_eq_of_perm _ _
      ((hp.map (fun p => p (lowerS text))).flatten)

/-- C9 witness: a concrete reordering of the pattern list leaves the
extracted set unchanged. -/
theorem extractorIsPatternUnion_witness :
    ([findApartmentNum, findRange142, findUnitNum, findThreeDigit] :
        List (Str → List Str)).Perm numberPatterns ∧
    (extractWith [findApartmentNum, findRange142, findUnitNum, findThreeDigit]
        (strL "rent apartment 144 payment")).toFinset =
      (extractNumbers (strL "rent apartment 144 payment")).toFinset :=
  ⟨List.Perm.swap findRange142 findApartmentNum [findUnitNum, findThreeDigit],
   (extractorIsPatternUnion (strL "rent apartment 144 payment")).2
     [findApartmentNum, findRange142, findUnitNum, findThreeDigit]
     (List.Perm.swap findRange142 findApartmentNum [findUnitNum, findThreeDigit])⟩

/-- C3 counterexample: the label "B" equals, case-insensitively, the full
name of filtered account "B" (id 2), yet the engine returns account "AB"
(id 1), because Stage 1's substring rule fires on an earlier account. -/
theorem exactNameReturned_cex :
    accB ∈ filterAccounts [accAB, accB] (strL "Expenses") ∧
    lowerS accB.name = lowerS (strL "B") ∧
    (findBestAccountMatch (strL "B") [accAB, accB] (strL "Expenses") none).1 =
      some (strL "1") ∧
    (findBestAccountMatch (strL "B") [accAB, accB] (strL "Expenses") none).1 ≠
      some accB.id := by
  decide

/-- C3 (amended): when the category label equals, case-insensitively, the
full name of the FIRST account of the filtered list, and Stage 0 yields no
hit, the engine returns that account at score 1.0. -/
theorem exactNameReturnsFirst (uc : Str) (accounts : List Account) (t : Str)
    (ctx : Option Str) (a : Account) (rest : List Account) (hu : uc ≠ [])
    (hfl : filterAccounts accounts t = a :: rest)
    (hname : lowerS uc = lowerS a.name)
    (h0 : stage0Gate uc t ctx (filterAccounts accounts t) = none) :
    findBestAccountMatch uc accounts t ctx =
      (some a.id, some a.name, 1,
        strL "Exact substring match: " ++ q1 ++ uc ++ q1 ++ strL " found in " ++
          q1 ++ a.name ++ q1) := by
  have hinf : infixB (stripS (lowerS uc)) (lowerS a.name) = true := by
    rw [hname]
    exact infixB_iff.mpr (stripS_infixOf (lowerS a.name))
  unfold findBestAccountMatch
  rw [if_neg hu, if_neg (by simp [hfl])]
  unfold pipeline
  rw [h0]
  simp only [pipeline0]
  rw [hfl]
  unfold stage1
  rw [List.findSome?_cons]
  simp only [hinf, if_true, pipeline1]

/-- C3 witness at a concrete input: label "rent" equals account name "Rent"
of the only expense account, which is returned at 1.0. -/
theorem exactNameReturnsFirst_witness :
    findBestAccountMatch (strL "rent") [accRent] (strL "Expenses") none =
      (some accRent.id, some accRent.name, 1,
        strL "Exact substring match: " ++ q1 ++ strL "rent" ++ q1 ++
          strL " found in " ++ q1 ++ accRent.name ++ q1) :=
  exactNameReturnsFirst (strL "rent") [accRent] (strL "Expenses") none
    accRent [] (by decide) (by decide) (by decide) (by decide)

/-- A successful Stage 0 always returns one qualifying token/account pair at
exactly 0.98. -/
theorem stage0_char {nums : List Str} {filtered : List Account}
    {r : MatchResult} (h : stage0 nums filtered = some r) :
    ∃ n a, n ∈ nums ∧ a ∈ filtered ∧ infixB n (lowerS a.name) = true ∧
      infixB (strL "rental") (lowerS a.name) = true ∧
      r = (some a.id, some a.name, mkRat 49 50,
        strL "Apartment-specific match: Found apartment " ++ n ++ strL " in " ++
          q1 ++ a.name ++ q1) := by
  unfold stage0 at h
  obtain ⟨n, hn, hfa⟩ := List.exists_of_findSome?_eq_some h
  obtain ⟨a, ha, hfa2⟩ := List.exists_of_findSome?_eq_some hfa
  split at hfa2
  · next hc =>
    rw [Bool.and_eq_true] at hc
    cases hfa2
    exact ⟨n, a, hn, ha, hc.1, hc.2, rfl⟩
  · cases hfa2

/-- C1 counterexample: an Income query with an empty category label whose
extracted numeric tokens include one appearing in a filtered account's name
together with "rental", yet the engine does not return score 0.98 (the empty
label short-circuits first). -/
theorem apartmentPreemptsSubstring_cex :
    (∃ n, n ∈ extractNumbers (([] : Str) ++ [' '] ++ strL "apartment 144 payment") ∧
      infixB n (lowerS acc144.name) = true ∧
      infixB (strL "rental") (lowerS acc144.name) = true) ∧
    acc144 ∈ filterAccounts [acc144] (strL "Income") ∧
    (findBestAccountMatch [] [acc144] (strL "Income")
      (some (strL "apartment 144 payment"))).2.2.1 ≠ mkRat 49 50 := by
  decide

/-- C1 (amended with a non-empty category label): whenever some extracted
numeric token appears in a filtered account's name together with "rental",
an Income query returns a qualifying account at score 0.98 from Stage 0 —
even when Stage 1's substring rule (score 1.0) would also apply. -/
theorem apartmentPreemptsSubstring (uc : Str) (accounts : List Account)
    (ctx : Option Str) (n : Str) (a : Account) (hu : uc ≠ [])
    (hn : n ∈ extractNumbers (uc ++ [' '] ++ ctx.getD []))
    (ha : a ∈ filterAccounts accounts (strL "Income"))
    (h1 : infixB n (lowerS a.name) = true)
    (h2 : infixB (strL "rental") (lowerS a.name) = true) :
    ∃ n' a', n' ∈ extractNumbers (uc ++ [' '] ++ ctx.getD []) ∧
      a' ∈ filterAccounts accounts (strL "Income") ∧
      infixB n' (lowerS a'.name) = true ∧
      infixB (strL "rental") (lowerS a'.name) = true ∧
      findBestAccountMatch uc accounts (strL "Income") ctx =
        (some a'.id, some a'.name, mkRat 49 50,
          strL "Apartment-specific match: Found apartment " ++ n' ++ strL " in " ++
            q1 ++ a'.name ++ q1) := by
  have hnums : extractNumbers (uc ++ [' '] ++ ctx.getD []) ≠ [] :=
    List.ne_nil_of_mem hn
  have hfne : filterAccounts accounts (strL "Income") ≠ [] :=
    List.ne_nil_of_mem ha
  have hs0 : ∃ r, stage0 (extractNumbers (uc ++ [' '] ++ ctx.getD []))
      (filterAccounts accounts (strL "Income")) = some r := by
    cases hc : stage0 (extractNumbers (uc ++ [' '] ++ ctx.getD []))
        (filterAccounts accounts (strL "Income")) with
    | some r => exact ⟨r, rfl⟩
    | none =>
      exfalso
      unfold stage0 at hc
      have hin := List.findSome?_eq_none_iff.mp hc n hn
      have hia := List.findSome?_eq_none_iff.mp hin a ha
      rw [h1, h2] at hia
      simp at hia
  obtain ⟨r, hr⟩ := hs0
  obtain ⟨n', a', hn', ha', h1', h2', hre⟩ := stage0_char hr
  refine ⟨n', a', hn', ha', h1', h2', ?_⟩
  unfold findBestAccountMatch
  rw [if_neg hu, if_neg hfne]
  unfold pipeline stage0Gate
  rw [if_pos ⟨hnums, by decide⟩, hr]
  simp only [pipeline0]
  exact hre

/-- C1 witness: the spec's rental example — label "rent", context
"apartment 144 payment", two rental accounts — hits Stage 0 at 0.98. -/
theorem apartmentPreemptsSubstring_witness :
    ∃ n' a', n' ∈ extractNumbers (strL "rent" ++ [' '] ++
        (some (strL "apartment 144 payment")).getD []) ∧
      a' ∈ filterAccounts [acc142, acc144] (strL "Income") ∧
      infixB n' (lowerS a'.name) = true ∧
      infixB (strL "rental") (lowerS a'.name) = true ∧
      findBestAccountMatch (strL "rent") [acc142, acc144] (strL "Income")
          (some (strL "apartment 144 payment")) =
        (some a'.id, some a'.name, mkRat 49 50,
          strL "Apartment-specific match: Found apartment " ++ n' ++ strL " in " ++
            q1 ++ a'.name ++ q1) :=
  apartmentPreemptsSubstring (strL "rent") [acc142, acc144]
    (some (strL "apartment 144 payment")) (strL "144") acc144
    (by decide) (by decide) (by decide) (by decide) (by decide)

/-- Stage 1 cannot miss on a non-empty list when the processed label is
empty: the empty string is a substring of every account name. -/
theorem stage1_ne_none_of_nil_ucl {uc : Str} {a : Account} {rest : List Account} :
    stage1 uc [] (a :: rest) ≠ none := by
  unfold stage1
  rw [List.findSome?_cons]
  have h : infixB [] (lowerS a.name) = true := infixB_iff.mpr List.nil_infix
  simp [h]

/-- C6: when Stages 0 and 1 miss, the engine accepts the Stage 2 global best
exactly at scores of at least 0.6, returning it with Stage 2's explanation;
for scores strictly between 0.3 and 0.6 the same best account is still
returned, labeled low-confidence with up to three available account names
appended. -/
theorem stage2ThresholdsGovern (uc t : Str) (accounts : List Account)
    (ctx : Option Str) (hf : filterAccounts accounts t ≠ [])
    (h0 : stage0Gate uc t ctx (filterAccounts accounts t) = none)
    (h1 : stage1 uc (stripS (lowerS uc)) (filterAccounts accounts t) = none) :
    (mkRat 3 5 ≤ (stage2 uc (stripS (lowerS uc)) (synTableFor t)
        (filterAccounts accounts t)).best_score →
      ∃ a, (stage2 uc (stripS (lowerS uc)) (synTableFor t)
          (filterAccounts accounts t)).best_match = some a ∧
        findBestAccountMatch uc accounts t ctx =
          (some a.id, some a.name,
            (stage2 uc (stripS (lowerS uc)) (synTableFor t)
              (filterAccounts accounts t)).best_score,
            (stage2 uc (stripS (lowerS uc)) (synTableFor t)
              (filterAccounts accounts t)).best_explanation)) ∧
    (mkRat 3 10 < (stage2 uc (stripS (lowerS uc)) (synTableFor t)
        (filterAccounts accounts t)).best_score →
      (stage2 uc (stripS (lowerS uc)) (synTableFor t)
        (filterAccounts accounts t)).best_score < mkRat 3 5 →
      ∃ a, (stage2 uc (stripS (lowerS uc)) (synTableFor t)
          (filterAccounts accounts t)).best_match = some a ∧
        findBestAccountMatch uc accounts t ctx =
          (some a.id, some a.name,
            (stage2 uc (stripS (lowerS uc)) (synTableFor t)
              (filterAccounts accounts t)).best_score,
            strL "Best available match (low confidence): " ++
              (stage2 uc (stripS (lowerS uc)) (synTableFor t)
                (filterAccounts accounts t)).best_explanation ++
              strL ". Available accounts: " ++
              availNames (filterAccounts accounts t))) := by
  obtain ⟨a0, rest, hfl⟩ : ∃ a0 rest, filterAccounts accounts t = a0 :: rest := by
    cases hfl' : filterAccounts accounts t with
    | nil => exact absurd hfl' hf
    | cons a0 rest => exact ⟨a0, rest, rfl⟩
  have hu : uc ≠ [] := by
    intro hc
    subst hc
    rw [hfl] at h1
    exact stage1_ne_none_of_nil_ucl h1
  have key : findBestAccountMatch uc accounts t ctx =
      stage23 uc t (stripS (lowerS uc)) (synTableFor t)
        (filterAccounts accounts t) := by
    unfold findBestAccountMatch
    rw [if_neg hu, if_neg hf]
    unfold pipeline
    rw [h0]
    simp only [pipeline0]
    rw [h1]
    simp only [pipeline1]
  rw [hfl] at key ⊢
  constructor
  · intro hge
    obtain ⟨a, hbm⟩ : ∃ a, (stage2 uc (stripS (lowerS uc)) (synTableFor t)
        (a0 :: rest)).best_match = some a := by
      cases hc : (stage2 uc (stripS (lowerS uc)) (synTableFor t)
          (a0 :: rest)).best_match with
      | some a => exact ⟨a, rfl⟩
      | none =>
        rw [stage2_StInv.1 hc] at hge
        exact absurd hge (by decide)
    refine ⟨a, hbm, ?_⟩
    rw [key]
    unfold stage23
    rw [hbm]
    simp only [stage23opt]
    rw [if_pos hge]
  · intro hgt hlt
    obtain ⟨a, hbm⟩ : ∃ a, (stage2 uc (stripS (lowerS uc)) (synTableFor t)
        (a0 :: rest)).best_match = some a := by
      cases hc : (stage2 uc (stripS (lowerS uc)) (synTableFor t)
          (a0 :: rest)).best_match with
      | some a => exact ⟨a, rfl⟩
      | none =>
        rw [stage2_StInv.1 hc] at hgt
        exact absurd hgt (by decide)
    refine ⟨a, hbm, ?_⟩
    rw [key]
    unfold stage23
    rw [hbm]
    simp only [stage23opt]
    rw [if_neg (not_le.mpr hlt)]
    simp only [stage3]
    rw [hbm]
    simp only [stage3opt]
    rw [if_pos hgt]

set_option maxRecDepth 4000 in
/-- C6 witness: label "rental" against the lone "Lease Income" account — no
Stage 0 or Stage 1 hit, Stage 2 best 0.88 from the synonym table, accepted
at the 0.6 threshold and returned with Stage 2's explanation. -/
theorem stage2ThresholdsGovern_witness :
    ∃ a, (stage2 (strL "rental") (stripS (lowerS (strL "rental")))
        (synTableFor (strL "Income"))
        (filterAccounts [accLease] (strL "Income"))).best_match = some a ∧
      findBestAccountMatch (strL "rental") [accLease] (strL "Income") none =
        (some a.id, some a.name,
          (stage2 (strL "rental") (stripS (lowerS (strL "rental")))
            (synTableFor (strL "Income"))
            (filterAccounts [accLease] (strL "Income"))).best_score,
          (stage2 (strL "rental") (stripS (lowerS (strL "rental")))
            (synTableFor (strL "Income"))
            (filterAccounts [accLease] (strL "Income"))).best_explanation) :=
  (stage2ThresholdsGovern (strL "rental") (strL "Income") [accLease] none
    (by decide) (by decide) (by decide)).1 (by decide)

/-- A conditional strict-greater update leaves the running best score at the
maximum of itself and the candidate. -/
theorem upd_score {st : MatchState} {v : ℚ} {a : Account} {e : Str} :
    (upd st v a e).best_score = max st.best_score v := by
  unfold upd
  rcases lt_or_ge st.best_score v with h | h
  · rw [if_pos h]
    exact (max_eq_right (le_of_lt h)).symm
  · rw [if_neg (not_lt.mpr h)]
    exact (max_eq_left h).symm

/-- Folding one fixed candidate score over a list of conditions awards it
exactly when some condition holds. -/
theorem updFold_score {α : Type} {v : ℚ} {cond : α → Bool} {E : α → Str}
    {a : Account} :
    ∀ (ls : List α) (st : MatchState),
      (ls.foldl (fun st x => if cond x then upd st v a (E x) else st)
        st).best_score =
      if ls.any cond then max st.best_score v else st.best_score := by
  intro ls
  induction ls with
  | nil =>
    intro st
    simp
  | cons x ls ih =>
    intro st
    rw [List.foldl_cons, List.any_cons]
    cases hx : cond x with
    | true =>
      simp only [hx, if_true, Bool.true_or]
      rw [ih, upd_score]
      split
      · rw [max_assoc, max_self]
      · rfl
    | false =>
      simp only [hx, if_false, Bool.false_or]
      exact ih st

/-- Score of the first synonym half for a matching entry: 0.9 when the key
is a substring of the account name, else 0.85 when some listed synonym is. -/
theorem synEntryUpd1_score {uc ucl anl : Str} {a : Account} {st : MatchState}
    {e : Str × List Str} (hm : (ucl == e.1 || e.2.contains ucl) = true) :
    (synEntryUpd1 uc ucl a anl st e).best_score =
      if infixB e.1 anl then max st.best_score (mkRat 9 10)
      else if e.2.any (fun s => infixB s anl) then max st.best_score (mkRat 17 20)
      else st.best_score := by
  unfold synEntryUpd1
  rw [if_pos hm, updFold_score]
  cases hk : infixB e.1 anl with
  | true =>
    simp only [reduceIte]
    rw [upd_score]
    split
    · rw [max_assoc,
        max_eq_left (show mkRat 17 20 ≤ mkRat 9 10 by decide)]
    · rfl
  | false =>
    simp only [Bool.false_eq_true, if_false]

set_option maxRecDepth 4000 in
/-- C7 counterexample: label "rental" matches the Income synonym entry whose
key is absent from "Lease Income" while the listed synonym "lease" is
present — an indirect synonym match — yet the engine returns score 0.88, not
the claimed 0.85: the second synonym branch (0.88) fires under the same
condition as the indirect branch and always supersedes its 0.85 award. -/
theorem synonymScoreTiers_cex :
    (strL "rental" == (INCOME_SYNONYMS.get! 5).1 ||
      (INCOME_SYNONYMS.get! 5).2.contains (strL "rental")) = true ∧
    infixB (INCOME_SYNONYMS.get! 5).1 (lowerS accLease.name) = false ∧
    (strL "lease") ∈ (INCOME_SYNONYMS.get! 5).2 ∧
    infixB (strL "lease") (lowerS accLease.name) = true ∧
    (findBestAccountMatch (strL "rental") [accLease] (strL "Income") none).2.2.1 =
      mkRat 22 25 ∧
    mkRat 22 25 ≠ mkRat 17 20 := by
  decide

/-- C7 (amended): for a synonym-table entry the category label matches, the
candidate scores are 0.90 when the key is a substring of the account name and
otherwise 0.88 when the key or any listed synonym is a substring — the
indirect branch's transient 0.85 award is always superseded by the 0.88
branch, whose condition is identical, so the entry's net effect on the
running best score never reflects 0.85. -/
theorem synonymScoreTiers {uc ucl anl : Str} {a : Account} {st : MatchState}
    {e : Str × List Str} (hm : (ucl == e.1 || e.2.contains ucl) = true) :
    (synEntryUpd uc ucl a anl st e).best_score =
      if infixB e.1 anl then max st.best_score (mkRat 9 10)
      else if (e.1 :: e.2).any (fun s => infixB s anl) then
        max st.best_score (mkRat 22 25)
      else st.best_score := by
  have hm2 : ((e.1 :: e.2).contains ucl) = true := by
    rw [List.contains_cons]
    exact hm
  unfold synEntryUpd
  rw [if_pos hm2, updFold_score, synEntryUpd1_score hm, List.any_cons]
  cases hk : infixB e.1 anl with
  | true =>
    simp only [Bool.true_or, reduceIte]
    rw [max_assoc,
      max_eq_left (show mkRat 22 25 ≤ mkRat 9 10 by decide)]
  | false =>
    simp only [Bool.false_eq_true, if_false, Bool.false_or]
    cases ha : e.2.any (fun s => infixB s anl) with
    | true =>
      simp only [reduceIte]
      rw [max_assoc,
        max_eq_right (show mkRat 17 20 ≤ mkRat 22 25 by decide)]
    | false =>
      simp only [Bool.false_eq_true, if_false]

set_option maxRecDepth 4000 in
/-- C7 witness: the matching "rental" entry applied to "Lease Income" from
the zero state nets exactly 0.88. -/
theorem synonymScoreTiers_witness :
    (synEntryUpd (strL "rental") (strL "rental") accLease
      (lowerS accLease.name) ⟨none, 0, []⟩ (INCOME_SYNONYMS.get! 5)).best_score =
      mkRat 22 25 := by
  rw [synonymScoreTiers (by decide)]
  decide
